import Mathlib

/-!
Shallow embedding of the les/flowcontrol token-bucket flow control core of
the repository (les/flowcontrol/control.go, and the ClientManager variant in
the unnamed flowcontrol source file), together with theorems settling the
spec claims about it.

Machine integers: Go `uint64` values are modelled as `Nat` with every
operation that can wrap written with an explicit `% 2^64`; `mclock.AbsTime`
(an `int64` count of nanoseconds) is modelled as `Int`.  The Go conversion
`uint64(x)` of an `int64` is `(x.emod (2^64)).toNat`.
-/

namespace Flowcontrol

/-- `2^64`, the modulus of Go's `uint64` arithmetic. -/
def U64 : Nat := 2 ^ 64

/-- Wrapping `uint64` addition. -/
def wadd (a b : Nat) : Nat := (a + b) % U64

/-- Wrapping `uint64` subtraction (for in-range arguments `a b < 2^64`). -/
def wsub (a b : Nat) : Nat := (a + U64 - b % U64) % U64

/-- Wrapping `uint64` multiplication. -/
def wmul (a b : Nat) : Nat := (a * b) % U64

/-- Go's `uint64(t)` for an `int64`-valued time difference `t`. -/
def u64ofInt (t : Int) : Nat := (t % (U64 : Int)).toNat

/-- `fcTimeConst = time.Millisecond` in nanoseconds. -/
def fcTimeConst : Nat := 1000000

/-- `DecParamDelay = 2 * time.Second` in nanoseconds. -/
def DecParamDelay : Int := 2000000000

/-- `safetyMargin = time.Millisecond` in nanoseconds. -/
def safetyMargin : Nat := 1000000

/-- ServerParams are the flow control parameters specified by a server for a
client (`BufLimit, MinRecharge uint64`). -/
structure ServerParams where
  bufLimit : Nat
  minRecharge : Nat
  deriving Repr, DecidableEq

/-- A pending scheduled parameter update `(time, params)`. -/
structure scheduledUpdate where
  time : Int
  params : ServerParams
  deriving Repr, DecidableEq

/-- Go map semantics for the `accepted`/`pending` maps: association list with
at most one entry per key.  Reading a missing key yields the zero value. -/
def lookupA (l : List (Nat × Nat)) (k : Nat) : Nat :=
  match l.find? (fun p => p.1 == k) with
  | some p => p.2
  | none => 0

/-- Go map assignment `m[k] = v`: replace the entry if present, else append. -/
def setA (l : List (Nat × Nat)) (k v : Nat) : List (Nat × Nat) :=
  match l with
  | [] => [(k, v)]
  | p :: rest => if p.1 == k then (k, v) :: rest else p :: setA rest k v

/-- Go `delete(m, k)`: remove the entry for `k` (no-op when absent). -/
def eraseA (l : List (Nat × Nat)) (k : Nat) : List (Nat × Nat) :=
  l.filter (fun p => p.1 != k)

/-- ClientNode is the flow control system's representation of a client
(server side).  Only the fields the control algorithms read and write are
embedded; the lock, logger and CM bookkeeping handles are omitted. -/
structure ClientNode where
  params : ServerParams
  bufValue : Nat
  lastTime : Int
  updateSchedule : List scheduledUpdate
  sumCost : Nat
  accepted : List (Nat × Nat)
  deriving Repr, DecidableEq

/-- `NewClientNode`: full buffer, empty accepted map, `lastTime = now`. -/
def NewClientNode (params : ServerParams) (now : Int) : ClientNode :=
  { params := params, bufValue := params.bufLimit, lastTime := now
    updateSchedule := [], sumCost := 0, accepted := [] }

/-- `ClientNode.recalcBV`: integrate the buffer from `lastTime` to `time` at
rate `MinRecharge` per `fcTimeConst`, clamp at `BufLimit`, set `lastTime`.
A `time` earlier than `lastTime` contributes `dt = 0`. -/
def recalcBV (time : Int) (st : ClientNode) : ClientNode :=
  let dt : Nat := if time < st.lastTime then 0 else u64ofInt (time - st.lastTime)
  let bv := wadd st.bufValue (wmul st.params.minRecharge dt / fcTimeConst)
  let bv := if bv > st.params.bufLimit then st.params.bufLimit else bv
  { st with bufValue := bv, lastTime := time }

/-- `ClientNode.updateParams` (the lowercase one): adjust `bufValue` for a
`BufLimit` change and install the new parameters.  The `diff` test is Go's
`int64(params.BufLimit - peer.params.BufLimit) > 0` on wrapping `uint64`
subtraction.  The final `peer.cm.updateParams` call lands in the
ClientManager variant that is absent from the tree; per the spec it makes
`params` the node's governing parameters (its integrator bookkeeping is not
part of the node state embedded here). -/
def updateParamsL (p : ServerParams) (st : ClientNode) : ClientNode :=
  let diff := wsub p.bufLimit st.params.bufLimit
  if 0 < diff ∧ diff < 2 ^ 63 then
    { st with bufValue := wadd st.bufValue diff, params := p }
  else if st.bufValue > p.bufLimit then
    { st with bufValue := p.bufLimit, params := p }
  else
    { st with params := p }

/-- The loop of `ClientNode.update`: apply every scheduled update that is due
by `time` (integrating up to its scheduled instant first). -/
def updateLoop (time : Int) : List scheduledUpdate → ClientNode → ClientNode
  | [], st => { st with updateSchedule := [] }
  | s :: rest, st =>
      if s.time ≤ time then
        updateLoop time rest (updateParamsL s.params (recalcBV s.time st))
      else
        { st with updateSchedule := s :: rest }

/-- `ClientNode.update`: apply due schedule entries, then integrate to `time`. -/
def update (time : Int) (st : ClientNode) : ClientNode :=
  recalcBV time (updateLoop time st.updateSchedule st)

/-- The schedule rewrite of `ClientNode.UpdateParams` in the decreasing
branch.  The Go loop `for i, s := range peer.updateSchedule` assigns
`s.params = params` to the *copy* `s`, so only the truncation
`peer.updateSchedule[:i+1]` is observable; when no entry matches, the new
update is appended at `now + DecParamDelay`. -/
def schedInsert (p : ServerParams) (app : scheduledUpdate) :
    List scheduledUpdate → List scheduledUpdate
  | [] => [app]
  | s :: rest =>
      if p.minRecharge ≥ s.params.minRecharge then [s]
      else s :: schedInsert p app rest

/-- `ClientNode.UpdateParams`: integrate, then either apply immediately
(non-decreasing `MinRecharge`, discarding the schedule) or schedule the
decrease. -/
def UpdateParams (p : ServerParams) (now : Int) (st : ClientNode) : ClientNode :=
  let st1 := update now st
  if p.minRecharge ≥ st1.params.minRecharge then
    updateParamsL p { st1 with updateSchedule := [] }
  else
    { st1 with updateSchedule := schedInsert p ⟨now + DecParamDelay, p⟩ st1.updateSchedule }

/-- Result of `AcceptRequest`: `(accepted, bufShort, priority)` plus the
post-state. -/
structure AcceptResult where
  accepted : Bool
  bufShort : Nat
  priority : Int
  state : ClientNode
  deriving Repr, DecidableEq

/-- `ClientNode.AcceptRequest`.  `prio` stands for the return value of
`peer.cm.accepted`, whose ClientManager implementation is absent from the
tree; per the spec it only touches the CM-side mirror, never the fields
embedded here. -/
def AcceptRequest (index maxCost : Nat) (prio : Int) (now : Int)
    (st : ClientNode) : AcceptResult :=
  let st1 := update now st
  if maxCost > st1.bufValue then
    ⟨false, maxCost - st1.bufValue, 0, st1⟩
  else
    let st2 := { st1 with
      bufValue := st1.bufValue - maxCost
      sumCost := wadd st1.sumCost maxCost }
    ⟨true, 0, prio, { st2 with accepted := setA st2.accepted index st2.sumCost }⟩

/-- `ClientNode.RequestProcessed`.  Modelled from the spec: the
`peer.cm.processed(peer, maxCost, realCost, time)` call lands in the
ClientManager variant that is absent from the tree; per the spec it refunds
`maxCost − realCost` to the CM-side mirror and, when the mirror exceeds the
node's `bufValue`, lifts `bufValue` up to it.  `corr` stands for that mirror
value.  The reported buffer value is
`bufValue + sumCost − accepted[index]` in wrapping `uint64` arithmetic, and
the `accepted` snapshot is deleted. -/
def RequestProcessed (index : Nat) (corr : Nat) (now : Int)
    (st : ClientNode) : Nat × ClientNode :=
  let st1 := update now st
  let st2 := if corr > st1.bufValue then { st1 with bufValue := corr } else st1
  let bv := wsub (wadd st2.bufValue st2.sumCost) (lookupA st2.accepted index)
  (bv, { st2 with accepted := eraseA st2.accepted index })


/-! ### Arithmetic and bookkeeping lemmas -/

theorem wadd_eq_of_lt {a b : Nat} (h : a + b < U64) : wadd a b = a + b :=
  Nat.mod_eq_of_lt h

theorem wsub_eq_of_le {a b : Nat} (hba : b ≤ a) (ha : a < U64) : wsub a b = a - b := by
  unfold wsub
  rw [Nat.mod_eq_of_lt (Nat.lt_of_le_of_lt hba ha)]
  have h1 : a + U64 - b = (a - b) + U64 := by omega
  rw [h1, Nat.add_mod_right, Nat.mod_eq_of_lt (by omega)]

theorem recalcBV_params (t : Int) (st : ClientNode) :
    (recalcBV t st).params = st.params := rfl

theorem recalcBV_sumCost (t : Int) (st : ClientNode) :
    (recalcBV t st).sumCost = st.sumCost := rfl

theorem recalcBV_accepted (t : Int) (st : ClientNode) :
    (recalcBV t st).accepted = st.accepted := rfl

theorem recalcBV_bufValue_le (t : Int) (st : ClientNode) :
    (recalcBV t st).bufValue ≤ st.params.bufLimit := by
  unfold recalcBV
  dsimp only
  split <;> split <;> omega

theorem updateParamsL_sumCost (p : ServerParams) (st : ClientNode) :
    (updateParamsL p st).sumCost = st.sumCost := by
  unfold updateParamsL
  dsimp only
  split
  · rfl
  · split <;> rfl

theorem updateParamsL_accepted (p : ServerParams) (st : ClientNode) :
    (updateParamsL p st).accepted = st.accepted := by
  unfold updateParamsL
  dsimp only
  split
  · rfl
  · split <;> rfl

theorem updateParamsL_params (p : ServerParams) (st : ClientNode) :
    (updateParamsL p st).params = p := by
  unfold updateParamsL
  dsimp only
  split
  · rfl
  · split <;> rfl

theorem updateParamsL_updateSchedule (p : ServerParams) (st : ClientNode) :
    (updateParamsL p st).updateSchedule = st.updateSchedule := by
  unfold updateParamsL
  dsimp only
  split
  · rfl
  · split <;> rfl

theorem updateLoop_sumCost (t : Int) (l : List scheduledUpdate) (st : ClientNode) :
    (updateLoop t l st).sumCost = st.sumCost := by
  induction l generalizing st with
  | nil => rfl
  | cons s rest ih =>
      unfold updateLoop
      split
      · rw [ih, updateParamsL_sumCost, recalcBV_sumCost]
      · rfl

theorem updateLoop_accepted (t : Int) (l : List scheduledUpdate) (st : ClientNode) :
    (updateLoop t l st).accepted = st.accepted := by
  induction l generalizing st with
  | nil => rfl
  | cons s rest ih =>
      unfold updateLoop
      split
      · rw [ih, updateParamsL_accepted, recalcBV_accepted]
      · rfl

theorem update_sumCost (t : Int) (st : ClientNode) :
    (update t st).sumCost = st.sumCost := by
  unfold update
  rw [recalcBV_sumCost, updateLoop_sumCost]

theorem update_accepted (t : Int) (st : ClientNode) :
    (update t st).accepted = st.accepted := by
  unfold update
  rw [recalcBV_accepted, updateLoop_accepted]

theorem update_bufValue_le (t : Int) (st : ClientNode) :
    (update t st).bufValue ≤ (update t st).params.bufLimit := by
  unfold update
  rw [recalcBV_params]
  exact recalcBV_bufValue_le t _

theorem lookupA_of_find? {l : List (Nat × Nat)} {k : Nat} {pr : Nat × Nat}
    (h : l.find? (fun p => p.1 == k) = some pr) : lookupA l k = pr.2 := by
  unfold lookupA
  rw [h]

theorem eraseA_of_find?_none {l : List (Nat × Nat)} {k : Nat}
    (h : l.find? (fun p => p.1 == k) = none) : eraseA l k = l := by
  unfold eraseA
  rw [List.filter_eq_self]
  intro a ha
  have := List.find?_eq_none.mp h a ha
  simpa using this

/-! ### C1: AcceptRequest admission -/

/-- C1.  After `AcceptRequest(reqID, index, maxCost)` integrates the buffer
(applying due schedule entries): if `maxCost > bufValue` the call returns
`(false, maxCost − bufValue, 0)` and leaves `bufValue`, `sumCost` and the
`accepted` map at their integrated values; otherwise it returns
`(true, 0, priority)`, decreases `bufValue` by `maxCost`, increases
`sumCost` by `maxCost` and records `accepted[index] = sumCost`. -/
theorem acceptRequest_admission (st : ClientNode) (index maxCost : Nat)
    (prio now : Int)
    (hs : (update now st).sumCost + maxCost < U64) :
    (maxCost > (update now st).bufValue →
      AcceptRequest index maxCost prio now st =
        ⟨false, maxCost - (update now st).bufValue, 0, update now st⟩) ∧
    (maxCost ≤ (update now st).bufValue →
      (AcceptRequest index maxCost prio now st).accepted = true ∧
      (AcceptRequest index maxCost prio now st).bufShort = 0 ∧
      (AcceptRequest index maxCost prio now st).state.bufValue
        = (update now st).bufValue - maxCost ∧
      (AcceptRequest index maxCost prio now st).state.sumCost
        = (update now st).sumCost + maxCost ∧
      (AcceptRequest index maxCost prio now st).state.accepted
        = setA (update now st).accepted index ((update now st).sumCost + maxCost)) := by
  constructor
  · intro h
    unfold AcceptRequest
    rw [if_pos h]
  · intro h
    unfold AcceptRequest
    rw [if_neg (by omega), wadd_eq_of_lt hs]
    exact ⟨rfl, rfl, rfl, rfl, rfl⟩

/-- Witness for C1 at a concrete input: a fresh node with `BufLimit = 1000`,
both branches exercised via `maxCost = 2000` (reject) and `maxCost = 300`
(accept). -/
theorem acceptRequest_admission_witness :
    ((update 0 (NewClientNode ⟨1000, 10⟩ 0)).sumCost + 300 < U64) ∧
    (300 ≤ (update 0 (NewClientNode ⟨1000, 10⟩ 0)).bufValue ∧
      (AcceptRequest 7 300 0 0 (NewClientNode ⟨1000, 10⟩ 0)).state.bufValue
        = (update 0 (NewClientNode ⟨1000, 10⟩ 0)).bufValue - 300) := by
  refine ⟨by decide, by decide, ?_⟩
  exact ((acceptRequest_admission (NewClientNode ⟨1000, 10⟩ 0) 7 300 0 0
    (by decide)).2 (by decide)).2.2.1

/-! ### C2 / C9: RequestProcessed reported buffer value -/

/-- C2.  When `index` carries an accepted-and-unprocessed snapshot `snap`,
`RequestProcessed` returns
`bufValue at emit time + (sumCost at emit time − snap)` (the state fields of
the returned node are exactly the emit-time values), and the `accepted[index]`
snapshot is deleted. -/
theorem requestProcessed_reported (st : ClientNode) (index corr : Nat)
    (now : Int) (snap : Nat)
    (hrec : (update now st).accepted.find? (fun p => p.1 == index)
      = some (index, snap))
    (hle : snap ≤ (update now st).sumCost)
    (hnw1 : (update now st).bufValue + (update now st).sumCost < U64)
    (hnw2 : corr + (update now st).sumCost < U64) :
    (RequestProcessed index corr now st).1
      = (RequestProcessed index corr now st).2.bufValue
        + ((RequestProcessed index corr now st).2.sumCost - snap) ∧
    (RequestProcessed index corr now st).2.accepted
      = eraseA (update now st).accepted index := by
  unfold RequestProcessed
  dsimp only
  have hlk : lookupA (update now st).accepted index = snap :=
    lookupA_of_find? hrec
  split
  · rw [hlk, wadd_eq_of_lt hnw2,
      wsub_eq_of_le (by omega) hnw2]
    refine ⟨?_, rfl⟩
    dsimp only
    omega
  · rw [hlk, wadd_eq_of_lt hnw1,
      wsub_eq_of_le (by omega) hnw1]
    refine ⟨?_, rfl⟩
    dsimp only
    omega

/-- Witness for C2 at a concrete input: accept cost 10 then cost 50 on a
fresh node, then process the first request; the emission formula and the
snapshot deletion are obtained from `requestProcessed_reported`. -/
theorem requestProcessed_reported_witness :
    (RequestProcessed 1 0 0
        (AcceptRequest 2 50 0 0
          (AcceptRequest 1 10 0 0 (NewClientNode ⟨100, 1000⟩ 0)).state).state).1
      = (RequestProcessed 1 0 0
          (AcceptRequest 2 50 0 0
            (AcceptRequest 1 10 0 0 (NewClientNode ⟨100, 1000⟩ 0)).state).state).2.bufValue
        + ((RequestProcessed 1 0 0
            (AcceptRequest 2 50 0 0
              (AcceptRequest 1 10 0 0 (NewClientNode ⟨100, 1000⟩ 0)).state).state).2.sumCost
           - 10) :=
  (requestProcessed_reported
    (AcceptRequest 2 50 0 0
      (AcceptRequest 1 10 0 0 (NewClientNode ⟨100, 1000⟩ 0)).state).state
    1 0 0 10 (by decide) (by decide) (by decide) (by decide)).1

/-- C9.  When `index` has no accepted snapshot, the Go map read yields 0, so
`RequestProcessed` succeeds and reports `bufValue + sumCost`, and the
`delete` is a no-op. -/
theorem requestProcessed_missing_snapshot (st : ClientNode) (index corr : Nat)
    (now : Int)
    (habs : (update now st).accepted.find? (fun p => p.1 == index) = none)
    (hnw1 : (update now st).bufValue + (update now st).sumCost < U64)
    (hnw2 : corr + (update now st).sumCost < U64) :
    (RequestProcessed index corr now st).1
      = (RequestProcessed index corr now st).2.bufValue
        + (RequestProcessed index corr now st).2.sumCost ∧
    (RequestProcessed index corr now st).2.accepted = (update now st).accepted := by
  unfold RequestProcessed
  dsimp only
  have hlk : lookupA (update now st).accepted index = 0 := by
    unfold lookupA
    rw [habs]
  have herase := eraseA_of_find?_none habs
  split
  · rw [hlk, wadd_eq_of_lt hnw2, wsub_eq_of_le (by omega) hnw2, herase]
    refine ⟨?_, rfl⟩
    dsimp only
    omega
  · rw [hlk, wadd_eq_of_lt hnw1, wsub_eq_of_le (by omega) hnw1, herase]
    refine ⟨?_, rfl⟩
    dsimp only
    omega

/-- Witness for C9 at a concrete input: process an index that was never
accepted on a node that accepted one other request. -/
theorem requestProcessed_missing_snapshot_witness :
    (RequestProcessed 9 0 0
        (AcceptRequest 1 10 0 0 (NewClientNode ⟨100, 1000⟩ 0)).state).1
      = (RequestProcessed 9 0 0
          (AcceptRequest 1 10 0 0 (NewClientNode ⟨100, 1000⟩ 0)).state).2.bufValue
        + (RequestProcessed 9 0 0
            (AcceptRequest 1 10 0 0 (NewClientNode ⟨100, 1000⟩ 0)).state).2.sumCost :=
  (requestProcessed_missing_snapshot
    (AcceptRequest 1 10 0 0 (NewClientNode ⟨100, 1000⟩ 0)).state
    9 0 0 (by decide) (by decide) (by decide)).1

/-! ### C3: reported buffer value versus BufLimit -/

/-- Counterexample to C3 as stated: accept cost 10 then cost 50 on a fresh
node with `BufLimit = 100` and `MinRecharge = 1000`, let the buffer recharge
to full for 1 ms, then process the first request.  The emitted
`reportedBufValue` is 150, strictly above `BufLimit = 100`. -/
theorem requestProcessed_bufLimit_counterexample :
    (RequestProcessed 1 0 1000000
        (AcceptRequest 2 50 0 0
          (AcceptRequest 1 10 0 0
            (NewClientNode ⟨100, 1000⟩ 0)).state).state).2.params.bufLimit
      < (RequestProcessed 1 0 1000000
          (AcceptRequest 2 50 0 0
            (AcceptRequest 1 10 0 0
              (NewClientNode ⟨100, 1000⟩ 0)).state).state).1 := by decide

/-- C3 amended.  The emitted `reportedBufValue` is bounded by
`BufLimit` *plus the cost accepted after this request's acceptance*
(`sumCost at emit − accepted[index]`); it can exceed `BufLimit` by exactly
that surplus (the client side clamps it on receipt). -/
theorem requestProcessed_reported_bound (st : ClientNode) (index corr : Nat)
    (now : Int)
    (hsnap : lookupA (update now st).accepted index ≤ (update now st).sumCost)
    (hcorr : corr ≤ (update now st).params.bufLimit)
    (hnw : (update now st).params.bufLimit + (update now st).sumCost < U64) :
    (RequestProcessed index corr now st).1
      ≤ (update now st).params.bufLimit
        + ((update now st).sumCost - lookupA (update now st).accepted index) := by
  unfold RequestProcessed
  dsimp only
  have hb := update_bufValue_le now st
  split
  · rw [wadd_eq_of_lt (by dsimp only; omega),
      wsub_eq_of_le (by dsimp only; omega) (by dsimp only; omega)]
    dsimp only
    omega
  · rw [wadd_eq_of_lt (by omega), wsub_eq_of_le (by omega) (by omega)]
    omega

/-- Witness for the amended C3 at the counterexample's concrete input: there
the bound `BufLimit + (sumCost − accepted[index]) = 100 + 50` is met with
equality by the emitted value 150. -/
theorem requestProcessed_reported_bound_witness :
    (RequestProcessed 1 0 1000000
        (AcceptRequest 2 50 0 0
          (AcceptRequest 1 10 0 0
            (NewClientNode ⟨100, 1000⟩ 0)).state).state).1
      ≤ (update 1000000
          (AcceptRequest 2 50 0 0
            (AcceptRequest 1 10 0 0
              (NewClientNode ⟨100, 1000⟩ 0)).state).state).params.bufLimit
        + ((update 1000000
            (AcceptRequest 2 50 0 0
              (AcceptRequest 1 10 0 0
                (NewClientNode ⟨100, 1000⟩ 0)).state).state).sumCost
           - lookupA (update 1000000
              (AcceptRequest 2 50 0 0
                (AcceptRequest 1 10 0 0
                  (NewClientNode ⟨100, 1000⟩ 0)).state).state).accepted 1) :=
  requestProcessed_reported_bound
    (AcceptRequest 2 50 0 0
      (AcceptRequest 1 10 0 0 (NewClientNode ⟨100, 1000⟩ 0)).state).state
    1 0 1000000 (by decide) (by decide) (by decide)

/-! ### C4 / C5: UpdateParams scheduling -/

theorem recalcBV_updateSchedule (t : Int) (st : ClientNode) :
    (recalcBV t st).updateSchedule = st.updateSchedule := rfl

theorem update_params_of_empty (st : ClientNode) (t : Int)
    (h : st.updateSchedule = []) : (update t st).params = st.params := by
  unfold update updateLoop
  rw [h, recalcBV_params]

theorem update_schedule_of_empty (st : ClientNode) (t : Int)
    (h : st.updateSchedule = []) : (update t st).updateSchedule = [] := by
  unfold update updateLoop
  rw [h, recalcBV_updateSchedule]

/-- C4.  On an empty update schedule: a non-decreasing `MinRecharge` update
governs immediately (the new parameters are installed at once); a decreasing
one is scheduled at `now + DecParamDelay` and the old parameters keep
governing until then.  Concretely, with `MinRecharge = 1000` and an update to
`500` issued at `t = 0`, the buffer integrated from a drained node grows by
1000 over the millisecond ending at `t = 1999 ms` and by 500 over the
millisecond starting at `t = 2001 ms`. -/
theorem updateParams_decParamDelay (st : ClientNode) (p : ServerParams)
    (now : Int) (h : st.updateSchedule = []) :
    (p.minRecharge ≥ st.params.minRecharge →
      (UpdateParams p now st).params = p ∧
      (UpdateParams p now st).updateSchedule = []) ∧
    (p.minRecharge < st.params.minRecharge →
      (UpdateParams p now st).params = st.params ∧
      (UpdateParams p now st).updateSchedule = [⟨now + DecParamDelay, p⟩]) ∧
    ((update 1999000000 (UpdateParams ⟨1000000000, 500⟩ 0
        { params := ⟨1000000000, 1000⟩, bufValue := 0, lastTime := 0,
          updateSchedule := [], sumCost := 0, accepted := [] })).bufValue
      - (update 1998000000 (UpdateParams ⟨1000000000, 500⟩ 0
        { params := ⟨1000000000, 1000⟩, bufValue := 0, lastTime := 0,
          updateSchedule := [], sumCost := 0, accepted := [] })).bufValue
      = 1000) ∧
    ((update 2002000000 (UpdateParams ⟨1000000000, 500⟩ 0
        { params := ⟨1000000000, 1000⟩, bufValue := 0, lastTime := 0,
          updateSchedule := [], sumCost := 0, accepted := [] })).bufValue
      - (update 2001000000 (UpdateParams ⟨1000000000, 500⟩ 0
        { params := ⟨1000000000, 1000⟩, bufValue := 0, lastTime := 0,
          updateSchedule := [], sumCost := 0, accepted := [] })).bufValue
      = 500) := by
  have hp := update_params_of_empty st now h
  have hsched := update_schedule_of_empty st now h
  refine ⟨?_, ?_, by decide, by decide⟩
  · intro hge
    unfold UpdateParams
    dsimp only
    rw [hp, if_pos hge, updateParamsL_params]
    refine ⟨rfl, ?_⟩
    rw [updateParamsL_updateSchedule]
  · intro hlt
    unfold UpdateParams
    dsimp only
    rw [hp, if_neg (by omega)]
    exact ⟨rfl, by dsimp only; rw [hsched]; rfl⟩

/-- Witness for C4 at concrete inputs: both the immediate branch
(`MinRecharge` raised from 10 to 20) and the delayed branch (lowered from
10 to 5) on a fresh node. -/
theorem updateParams_decParamDelay_witness :
    ((UpdateParams ⟨100, 20⟩ 0 (NewClientNode ⟨100, 10⟩ 0)).params = ⟨100, 20⟩ ∧
      (UpdateParams ⟨100, 20⟩ 0 (NewClientNode ⟨100, 10⟩ 0)).updateSchedule = []) ∧
    ((UpdateParams ⟨100, 5⟩ 0 (NewClientNode ⟨100, 10⟩ 0)).params = ⟨100, 10⟩ ∧
      (UpdateParams ⟨100, 5⟩ 0 (NewClientNode ⟨100, 10⟩ 0)).updateSchedule
        = [⟨(0 : Int) + DecParamDelay, ⟨100, 5⟩⟩]) :=
  ⟨(updateParams_decParamDelay (NewClientNode ⟨100, 10⟩ 0) ⟨100, 20⟩ 0 rfl).1
      (by decide),
   (updateParams_decParamDelay (NewClientNode ⟨100, 10⟩ 0) ⟨100, 5⟩ 0 rfl).2.1
      (by decide)⟩

/-- C5 (code bug).  `UpdateParams` with `MinRecharge = 700` on a node whose
schedule holds a pending decrease to 500 is meant to truncate the schedule
*and replace* the entry's parameters with the new ones (the Go source
assigns `s.params = params`), but the assignment hits the `range` loop's
copy, so the schedule keeps the stale entry with `MinRecharge = 500` and the
new value 700 appears nowhere in the schedule. -/
theorem updateParams_truncation_drops_decrease :
    (UpdateParams ⟨100, 700⟩ 0
        { params := ⟨100, 1000⟩, bufValue := 0, lastTime := 0,
          updateSchedule := [⟨5000000000, ⟨100, 500⟩⟩], sumCost := 0,
          accepted := [] }).updateSchedule
      = [⟨5000000000, ⟨100, 500⟩⟩] ∧
    ((UpdateParams ⟨100, 700⟩ 0
        { params := ⟨100, 1000⟩, bufValue := 0, lastTime := 0,
          updateSchedule := [⟨5000000000, ⟨100, 500⟩⟩], sumCost := 0,
          accepted := [] }).updateSchedule.all
      (fun s => s.params.minRecharge != 700)) = true := by decide

/-! ### C8: reject-then-accept scenario -/

/-- Counterexample to C8 as stated: in the spec's scenario
(`BufLimit = 1_000_000`, `MinRecharge = 1000/ms`, buffer drained to 0,
`maxCost = 10` rejected, clock advanced 15 ms, request resubmitted), the
resulting `bufValue` is 14_990, not the claimed 14_000. -/
theorem rejectThenAccept_counterexample :
    (AcceptRequest 1 10 0 15000000
        (AcceptRequest 1 10 0 0
          (AcceptRequest 0 1000000 0 0
            (NewClientNode ⟨1000000, 1000⟩ 0)).state).state).state.bufValue
      ≠ 14000 := by decide

/-- C8 amended.  Same scenario: the drained node rejects `maxCost = 10` with
deficit 10; 15 ms later the resubmission is accepted with deficit 0 and
leaves `bufValue = 14_990` (15 ms × 1000/ms recharge minus the cost 10). -/
theorem rejectThenAccept_scenario :
    ((AcceptRequest 0 1000000 0 0
        (NewClientNode ⟨1000000, 1000⟩ 0)).state.bufValue = 0) ∧
    ((AcceptRequest 1 10 0 0
        (AcceptRequest 0 1000000 0 0
          (NewClientNode ⟨1000000, 1000⟩ 0)).state).accepted = false) ∧
    ((AcceptRequest 1 10 0 0
        (AcceptRequest 0 1000000 0 0
          (NewClientNode ⟨1000000, 1000⟩ 0)).state).bufShort = 10) ∧
    ((AcceptRequest 1 10 0 15000000
        (AcceptRequest 1 10 0 0
          (AcceptRequest 0 1000000 0 0
            (NewClientNode ⟨1000000, 1000⟩ 0)).state).state).accepted = true) ∧
    ((AcceptRequest 1 10 0 15000000
        (AcceptRequest 1 10 0 0
          (AcceptRequest 0 1000000 0 0
            (NewClientNode ⟨1000000, 1000⟩ 0)).state).state).bufShort = 0) ∧
    ((AcceptRequest 1 10 0 15000000
        (AcceptRequest 1 10 0 0
          (AcceptRequest 0 1000000 0 0
            (NewClientNode ⟨1000000, 1000⟩ 0)).state).state).state.bufValue
      = 14990) := by decide

/-! ### C10: clock regression in recalcBV -/

theorem recalcBV_lastTime (t : Int) (st : ClientNode) :
    (recalcBV t st).lastTime = t := rfl

/-- C10.  A `recalcBV` at `t` earlier than `lastTime` credits nothing
(`dt = 0`) but still rewinds `lastTime` to `t`; a following `recalcBV` at
`t2 ≥` the old `lastTime` then credits `MinRecharge × (t2 − t) / fcTimeConst`,
re-counting the span between `t` and the old `lastTime`, so the buffer ends
strictly above what continuous forward time from the old `lastTime` would
yield (whenever the double-counted span contributes at least one unit). -/
theorem recalcBV_clock_regression (st : ClientNode) (t t2 : Int)
    (h1 : t < st.lastTime) (h2 : st.lastTime ≤ t2)
    (hb : st.bufValue ≤ st.params.bufLimit)
    (hL : st.params.bufLimit < U64)
    (hdt : t2 - t < (U64 : Int))
    (hw : st.params.minRecharge * (t2 - t).toNat < U64)
    (hnc : st.bufValue + st.params.minRecharge * (t2 - t).toNat / fcTimeConst
      ≤ st.params.bufLimit) :
    (recalcBV t st).bufValue = st.bufValue ∧
    (recalcBV t st).lastTime = t ∧
    (recalcBV t2 (recalcBV t st)).bufValue
      = st.bufValue + st.params.minRecharge * (t2 - t).toNat / fcTimeConst ∧
    (st.params.minRecharge * (t2 - st.lastTime).toNat / fcTimeConst
        < st.params.minRecharge * (t2 - t).toNat / fcTimeConst →
      st.bufValue + st.params.minRecharge * (t2 - st.lastTime).toNat / fcTimeConst
        < (recalcBV t2 (recalcBV t st)).bufValue) := by
  have hmul0 : wmul st.params.minRecharge 0 = 0 := by
    unfold wmul
    rw [Nat.mul_zero, Nat.zero_mod]
  have hid : wadd st.bufValue 0 = st.bufValue := by
    unfold wadd
    rw [Nat.add_zero]
    exact Nat.mod_eq_of_lt (Nat.lt_of_le_of_lt hb hL)
  have hbv1 : (recalcBV t st).bufValue = st.bufValue := by
    unfold recalcBV
    dsimp only
    rw [if_pos h1, hmul0, Nat.zero_div, hid, if_neg (by omega)]
  have he : u64ofInt (t2 - t) = (t2 - t).toNat := by
    unfold u64ofInt
    congr 1
    exact Int.emod_eq_of_lt (by omega) hdt
  have hnlt : ¬ t2 < t := by omega
  have hbv2 : (recalcBV t2 (recalcBV t st)).bufValue
      = st.bufValue + st.params.minRecharge * (t2 - t).toNat / fcTimeConst := by
    conv_lhs => rw [recalcBV]
    dsimp only
    rw [recalcBV_lastTime, recalcBV_params, hbv1, if_neg hnlt, he]
    unfold wmul
    rw [Nat.mod_eq_of_lt hw]
    unfold wadd
    rw [Nat.mod_eq_of_lt (by omega), if_neg (by omega)]
  exact ⟨hbv1, rfl, hbv2, fun hst => by omega⟩

/-- Witness for C10 at a concrete input: `lastTime = 1 ms`, regression to
`t = 0`, recovery to `t2 = 2 ms`, `MinRecharge = 1000`: the buffer gains
2000, strictly more than the 1000 continuous forward time would credit. -/
theorem recalcBV_clock_regression_witness :
    (0 : Nat) + 1000 * ((2000000 : Int) - 1000000).toNat / fcTimeConst
      < (recalcBV 2000000 (recalcBV 0
          { params := ⟨1000000, 1000⟩, bufValue := 0, lastTime := 1000000,
            updateSchedule := [], sumCost := 0, accepted := [] })).bufValue :=
  (recalcBV_clock_regression
    { params := ⟨1000000, 1000⟩, bufValue := 0, lastTime := 1000000,
      updateSchedule := [], sumCost := 0, accepted := [] }
    0 2000000 (by decide) (by decide) (by decide) (by decide) (by decide)
    (by decide) (by decide)).2.2.2 (by decide)

/-! ### C6: ClientManager.processed real cost (old-variant ClientManager) -/

/-- Go's `int64(u)` reinterpretation of a `uint64` value. -/
def i64 (n : Nat) : Int :=
  if n % U64 < 2 ^ 63 then ((n % U64 : Nat) : Int) else ((n % U64 : Nat) : Int) - (U64 : Int)

/-- The real-cost computation of `ClientManager.processed`:
`realCost = uint64(time - node.servingStarted)` clamped above (only) by
`servingMaxCost`. -/
def cmRealCost (now servingStarted : Int) (servingMaxCost : Nat) : Nat :=
  let rc := u64ofInt (now - servingStarted)
  if rc > servingMaxCost then servingMaxCost else rc

/-- The `bvc`-application fragment of `ClientManager.updateNodeRc`: add the
delta to `corrBufValue` and clamp to `[0, BufLimit]`.  `corrAfterInt` stands
for the node's `corrBufValue` after the preceding recharge-integration step
(whose shared-slope integrator is floating-point and outside this claim). -/
def rcApplyDelta (bufLimit : Nat) (corrAfterInt bvc : Int) : Int :=
  let v := corrAfterInt + bvc
  let v := if v < 0 then 0 else v
  if v ≥ (bufLimit : Int) then (bufLimit : Int) else v

/-- `ClientManager.processed` (the variant in the unnamed flowcontrol source
file): compute `realCost` and credit `servingMaxCost − realCost` back to the
node's CM-side mirror buffer through `updateNodeRc`. -/
def cmProcessed (bufLimit : Nat) (now servingStarted : Int)
    (servingMaxCost : Nat) (corrAfterInt : Int) : Nat × Int :=
  let realCost := cmRealCost now servingStarted servingMaxCost
  (realCost, rcApplyDelta bufLimit corrAfterInt (i64 (servingMaxCost - realCost)))

/-- Counterexample to C6 as stated: with `servingStarted = 10 ns`,
completion time `now = 5 ns` (clock earlier than the start) and
`servingMaxCost = 100`, the claim demands `realCost = 0`, but
`uint64(now − servingStarted)` wraps to `2^64 − 5`, which the upper clamp
turns into `realCost = servingMaxCost = 100`. -/
theorem cmRealCost_counterexample :
    cmRealCost 5 10 100 = 100 ∧ cmRealCost 5 10 100 ≠ 0 := by decide

/-- C6 amended.  `realCost = min(uint64(now − servingStarted),
servingMaxCost)`: for `now ≥ servingStarted` (difference in `uint64` range)
this is `now − servingStarted` clamped above by `servingMaxCost`, but for
`now < servingStarted` the wrapped difference lands at or above `2^63`, so
`realCost = servingMaxCost` rather than 0.  In both cases
`servingMaxCost − realCost` is the delta credited to the node's CM-side
mirror buffer, which lands there in full when no `[0, BufLimit]` clamp
fires. -/
theorem cmProcessed_realCost (bufLimit : Nat) (now started : Int)
    (maxCost : Nat) (corr : Int) :
    (started ≤ now → now - started < (U64 : Int) →
      (cmProcessed bufLimit now started maxCost corr).1
        = min (now - started).toNat maxCost) ∧
    (now < started → started - now ≤ 2 ^ 63 → maxCost < 2 ^ 63 →
      (cmProcessed bufLimit now started maxCost corr).1 = maxCost) ∧
    (maxCost < 2 ^ 63 →
      0 ≤ corr →
      corr + ((maxCost : Int) - (cmProcessed bufLimit now started maxCost corr).1)
          ≤ (bufLimit : Int) →
      (cmProcessed bufLimit now started maxCost corr).2
        = corr + ((maxCost : Int)
            - (cmProcessed bufLimit now started maxCost corr).1)) := by
  have hUn : U64 = 18446744073709551616 := by norm_num [U64]
  have hU : ((U64 : Nat) : Int) = 18446744073709551616 := by
    rw [hUn]
    norm_num
  have hfst : (cmProcessed bufLimit now started maxCost corr).1
      = cmRealCost now started maxCost := rfl
  have hsnd : (cmProcessed bufLimit now started maxCost corr).2
      = rcApplyDelta bufLimit corr
          (i64 (maxCost - cmRealCost now started maxCost)) := rfl
  have hrc : cmRealCost now started maxCost ≤ maxCost := by
    unfold cmRealCost
    dsimp only
    split <;> omega
  refine ⟨?_, ?_, ?_⟩
  · intro hle hlt
    rw [hfst]
    unfold cmRealCost
    dsimp only
    have he : u64ofInt (now - started) = (now - started).toNat := by
      unfold u64ofInt
      rw [hU]
      omega
    rw [he]
    split <;> omega
  · intro hgt hrange hmc
    rw [hfst]
    unfold cmRealCost
    dsimp only
    have he : u64ofInt (now - started) = (now - started + (U64 : Int)).toNat := by
      unfold u64ofInt
      rw [hU]
      omega
    rw [he]
    rw [if_pos (by rw [hU]; omega)]
  · intro hmc hc0 hcb
    rw [hfst] at hcb
    rw [hfst, hsnd]
    have hmod : (maxCost - cmRealCost now started maxCost) % U64
        = maxCost - cmRealCost now started maxCost :=
      Nat.mod_eq_of_lt (by omega)
    have hi : i64 (maxCost - cmRealCost now started maxCost)
        = (maxCost : Int) - (cmRealCost now started maxCost : Int) := by
      unfold i64
      rw [hmod, if_pos (by omega)]
      omega
    rw [hi]
    unfold rcApplyDelta
    dsimp only
    have hv0 : ¬ (corr + ((maxCost : Int)
        - (cmRealCost now started maxCost : Int)) < 0) := by omega
    rw [if_neg hv0]
    by_cases hvl : corr + ((maxCost : Int)
        - (cmRealCost now started maxCost : Int)) ≥ (bufLimit : Int)
    · rw [if_pos hvl]
      omega
    · rw [if_neg hvl]

/-- Witness for the amended C6 at concrete inputs: a forward-time completion
(`started = 0`, `now = 7`, `maxCost = 100`) and a clock-regressed one
(`started = 10`, `now = 5`), with the credit landing in full. -/
theorem cmProcessed_realCost_witness :
    ((cmProcessed 1000 7 0 100 0).1 = min ((7 : Int) - 0).toNat 100) ∧
    ((cmProcessed 1000 5 10 100 0).1 = 100) ∧
    ((cmProcessed 1000 7 0 100 0).2
      = 0 + ((100 : Int) - (cmProcessed 1000 7 0 100 0).1)) :=
  ⟨(cmProcessed_realCost 1000 7 0 100 0).1 (by decide) (by decide),
   (cmProcessed_realCost 1000 5 10 100 0).2.1 (by decide) (by decide) (by decide),
   (cmProcessed_realCost 1000 7 0 100 0).2.2 (by decide) (by decide) (by decide)⟩

/-! ### C7: client-side ServerNode bufEstimate invariant -/

/-- ServerNode is the flow control system's representation of a server
(client side).  The clock, lock and logger are omitted; `CanSend`'s
floating-point relative-buffer return value is read-only and not part of the
state. -/
structure ServerNode where
  bufEstimate : Nat
  bufRecharge : Bool
  lastTime : Int
  params : ServerParams
  sumCost : Nat
  pending : List (Nat × Nat)
  deriving Repr, DecidableEq

/-- `NewServerNode`: full estimate, recharge off, empty pending map. -/
def NewServerNode (params : ServerParams) (now : Int) : ServerNode :=
  { bufEstimate := params.bufLimit, bufRecharge := false, lastTime := now,
    params := params, sumCost := 0, pending := [] }

/-- `ServerNode.recalcBLE`: return unchanged when `time < lastTime`;
otherwise integrate the estimate only while `bufRecharge` is set, turning it
off at `BufLimit`, and advance `lastTime`. -/
def recalcBLE (time : Int) (st : ServerNode) : ServerNode :=
  if time < st.lastTime then st
  else
    let st1 :=
      if st.bufRecharge then
        let dt := u64ofInt (time - st.lastTime)
        let est := wadd st.bufEstimate (wmul st.params.minRecharge dt / fcTimeConst)
        if est ≥ st.params.bufLimit then
          { st with bufEstimate := st.params.bufLimit, bufRecharge := false }
        else
          { st with bufEstimate := est }
      else st
    { st1 with lastTime := time }

/-- The state effect of `ServerNode.CanSend`: it only calls `recalcBLE`
(its wait-time and relative-buffer return values read the state). -/
def canSendState (now : Int) (st : ServerNode) : ServerNode :=
  recalcBLE now st

/-- `ServerNode.QueuedRequest`: debit the estimate by `maxCost` (wrapping
`uint64` subtraction, with no check against the current estimate), bump
`sumCost` and record `pending[reqID] = sumCost`. -/
def QueuedRequest (reqID maxCost : Nat) (now : Int) (st : ServerNode) :
    ServerNode :=
  let st1 := recalcBLE now st
  let st2 := { st1 with bufEstimate := wsub st1.bufEstimate maxCost,
                        sumCost := wadd st1.sumCost maxCost }
  { st2 with pending := setA st2.pending reqID st2.sumCost }

/-- `ServerNode.ReceivedReply`: clamp the reported value to `BufLimit`;
drop unknown `reqID`s; otherwise set
`bufEstimate = max(0, bv − (sumCost − pending[reqID]))`, refresh
`bufRecharge` and `lastTime`, and delete the pending entry. -/
def ReceivedReply (reqID bv : Nat) (time : Int) (st : ServerNode) :
    ServerNode :=
  let st1 := recalcBLE time st
  let bv1 := if bv > st1.params.bufLimit then st1.params.bufLimit else bv
  match st1.pending.find? (fun p => p.1 == reqID) with
  | none => st1
  | some pr =>
      let pending2 := eraseA st1.pending reqID
      let cc := wsub st1.sumCost pr.2
      let est := if bv1 > cc then bv1 - cc else 0
      { st1 with pending := pending2, bufEstimate := est,
                 bufRecharge := decide (est < st1.params.bufLimit),
                 lastTime := time }

/-- `ServerNode.UpdateParams`: credit a `BufLimit` growth to the estimate,
clamp on a shrink, and install the new parameters. -/
def ServerNode.UpdateParams (p : ServerParams) (now : Int) (st : ServerNode) :
    ServerNode :=
  let st1 := recalcBLE now st
  let st2 :=
    if p.bufLimit > st1.params.bufLimit then
      { st1 with bufEstimate := wadd st1.bufEstimate (p.bufLimit - st1.params.bufLimit) }
    else if st1.bufEstimate > p.bufLimit then
      { st1 with bufEstimate := p.bufLimit }
    else st1
  { st2 with params := p }

/-- One client-side call, as used by C7's quantification over call
sequences. -/
inductive SnOp where
  | canSend (now : Int)
  | queuedRequest (reqID maxCost : Nat) (now : Int)
  | receivedReply (reqID bv : Nat) (now : Int)
  | updateParams (p : ServerParams) (now : Int)
  deriving Repr, DecidableEq

/-- Apply one call to a ServerNode. -/
def SnOp.apply : SnOp → ServerNode → ServerNode
  | .canSend now, st => canSendState now st
  | .queuedRequest reqID maxCost now, st => QueuedRequest reqID maxCost now st
  | .receivedReply reqID bv now, st => ReceivedReply reqID bv now st
  | .updateParams p now, st => ServerNode.UpdateParams p now st

/-- Run a sequence of client-side calls. -/
def snRun : List SnOp → ServerNode → ServerNode
  | [], st => st
  | op :: rest, st => snRun rest (op.apply st)

/-- Well-formed call sequence: every `QueuedRequest` is covered by the
current (integrated) estimate, and parameters are `uint64` values. -/
def snSafe : List SnOp → ServerNode → Bool
  | [], _ => true
  | op :: rest, st =>
      (match op with
       | .queuedRequest _ maxCost now =>
           decide (maxCost ≤ (recalcBLE now st).bufEstimate)
       | .updateParams p _ => decide (p.bufLimit < U64)
       | _ => true) && snSafe rest (op.apply st)

/-- The C7 invariant: the estimate never exceeds the current `BufLimit`
(kept together with in-range parameters). -/
def snInv (st : ServerNode) : Prop :=
  st.bufEstimate ≤ st.params.bufLimit ∧ st.params.bufLimit < U64

theorem recalcBLE_params (t : Int) (st : ServerNode) :
    (recalcBLE t st).params = st.params := by
  unfold recalcBLE
  dsimp only
  split
  · rfl
  · split
    · split <;> rfl
    · rfl

theorem recalcBLE_inv (t : Int) {st : ServerNode} (h : snInv st) :
    snInv (recalcBLE t st) := by
  have h1 : st.bufEstimate ≤ st.params.bufLimit := h.1
  have h2 : st.params.bufLimit < U64 := h.2
  unfold recalcBLE
  dsimp only
  split
  · exact ⟨h1, h2⟩
  · split
    · split
      · refine ⟨?_, ?_⟩ <;> (dsimp only; omega)
      · refine ⟨?_, ?_⟩ <;> (dsimp only; omega)
    · refine ⟨?_, ?_⟩ <;> (dsimp only; omega)

theorem queuedRequest_inv (reqID maxCost : Nat) (now : Int) {st : ServerNode}
    (h : snInv st) (hs : maxCost ≤ (recalcBLE now st).bufEstimate) :
    snInv (QueuedRequest reqID maxCost now st) := by
  have hA : (recalcBLE now st).bufEstimate ≤ (recalcBLE now st).params.bufLimit :=
    (recalcBLE_inv now h).1
  have hB : (recalcBLE now st).params.bufLimit < U64 := (recalcBLE_inv now h).2
  unfold QueuedRequest
  dsimp only
  rw [wsub_eq_of_le hs (by omega)]
  refine ⟨?_, ?_⟩ <;> (dsimp only; omega)

theorem receivedReply_inv (reqID bv : Nat) (time : Int) {st : ServerNode}
    (h : snInv st) : snInv (ReceivedReply reqID bv time st) := by
  have hA : (recalcBLE time st).bufEstimate ≤ (recalcBLE time st).params.bufLimit :=
    (recalcBLE_inv time h).1
  have hB : (recalcBLE time st).params.bufLimit < U64 := (recalcBLE_inv time h).2
  unfold ReceivedReply
  dsimp only
  split
  · exact ⟨hA, hB⟩
  · refine ⟨?_, ?_⟩ <;> (dsimp only) <;> [skip; omega]
    split <;> split <;> omega

theorem snUpdateParams_inv (p : ServerParams) (now : Int) {st : ServerNode}
    (h : snInv st) (hp : p.bufLimit < U64) :
    snInv (ServerNode.UpdateParams p now st) := by
  have hA : (recalcBLE now st).bufEstimate ≤ (recalcBLE now st).params.bufLimit :=
    (recalcBLE_inv now h).1
  have hB : (recalcBLE now st).params.bufLimit < U64 := (recalcBLE_inv now h).2
  unfold ServerNode.UpdateParams
  dsimp only
  split
  · next hgrow =>
      rw [wadd_eq_of_lt (by omega)]
      refine ⟨?_, ?_⟩ <;> (dsimp only; omega)
  · split
    · refine ⟨?_, ?_⟩ <;> (dsimp only; omega)
    · refine ⟨?_, ?_⟩ <;> (dsimp only; omega)

/-- Counterexample to C7 as stated: on a fresh client-side node with
`BufLimit = 100`, a single `QueuedRequest` with `maxCost = 200` (no
precondition relates it to `bufEstimate`) wraps the `uint64` subtraction and
leaves `bufEstimate = 2^64 − 100`, far above `BufLimit`. -/
theorem queuedRequest_overflow_counterexample :
    (QueuedRequest 1 200 0 (NewServerNode ⟨100, 10⟩ 0)).params.bufLimit
      < (QueuedRequest 1 200 0 (NewServerNode ⟨100, 10⟩ 0)).bufEstimate := by
  decide

/-- C7 amended.  `bufEstimate ≤ BufLimit` holds after every call of any
sequence of `CanSend`, `QueuedRequest`, `ReceivedReply` and `UpdateParams`
calls starting from `NewServerNode`, *provided* every `QueuedRequest`'s
`maxCost` is at most the estimate current (after integration) at that call
(and parameter updates carry `uint64`-range values); without that
precondition the subtraction in `QueuedRequest` wraps. -/
theorem serverNode_bufEstimate_invariant :
    (∀ p : ServerParams, ∀ now : Int, p.bufLimit < U64 →
      snInv (NewServerNode p now)) ∧
    (∀ ops : List SnOp, ∀ st : ServerNode, snInv st → snSafe ops st = true →
      snInv (snRun ops st)) := by
  constructor
  · intro p now h
    exact ⟨Nat.le_refl _, h⟩
  · intro ops
    induction ops with
    | nil =>
        intro st h _
        exact h
    | cons op rest ih =>
        intro st hinv hsafe
        unfold snSafe at hsafe
        rw [Bool.and_eq_true] at hsafe
        unfold snRun
        refine ih _ ?_ hsafe.2
        cases op with
        | canSend now => exact recalcBLE_inv now hinv
        | queuedRequest reqID maxCost now =>
            exact queuedRequest_inv reqID maxCost now hinv
              (by have := hsafe.1; simpa using this)
        | receivedReply reqID bv now => exact receivedReply_inv reqID bv now hinv
        | updateParams p now =>
            exact snUpdateParams_inv p now hinv
              (by have := hsafe.1; simpa using this)

/-- Witness for the amended C7 at a concrete input: a queue of cost 40
followed by a reply, on a fresh node with `BufLimit = 100`. -/
theorem serverNode_bufEstimate_invariant_witness :
    snInv (snRun [SnOp.queuedRequest 1 40 0, SnOp.receivedReply 1 80 1000000]
      (NewServerNode ⟨100, 10⟩ 0)) :=
  serverNode_bufEstimate_invariant.2
    [SnOp.queuedRequest 1 40 0, SnOp.receivedReply 1 80 1000000]
    (NewServerNode ⟨100, 10⟩ 0)
    (serverNode_bufEstimate_invariant.1 ⟨100, 10⟩ 0 (by decide))
    (by decide)

end Flowcontrol
